import Mathlib

/-!
Verification of the trading backend's core engines against its
natural-language specification.

Shallow embedding conventions:
* `rust_decimal::Decimal` values are modelled as exact rationals (`ℚ`);
  every arithmetic operation the source performs is mirrored on `ℚ`.
* Database I/O inside one SQL transaction is modelled as a pure state
  transformation; an `Except.error` result models the transaction
  aborting (rollback), so the caller keeps the pre-transaction state.
* `Decimal::sqrt` (a Newton-iteration routine inside `rust_decimal`) is
  passed in as an unspecified function parameter where the source calls
  it; no claim below depends on its values.
* Strings already parsed into `Decimal` by the source are modelled as
  the parsed rational values.
-/

/- ===================================================================
   Section 1: the Execution Procedure
   (src/backend/src/services/execution.rs, `execute_order`)
   =================================================================== -/

/-- A row of the `holdings` table for one (user, coin) pair. -/
structure Holding where
  quantity : ℚ
  average_buy_price : ℚ
  deriving DecidableEq, Repr

/-- A record inserted into the `transactions` table. -/
structure TxRecord where
  transaction_type : String
  quantity : ℚ
  price_per_unit : ℚ
  total_amount : ℚ
  deriving DecidableEq, Repr

/-- The slice of database state that `execute_order` touches for the
order's owner and coin: the profile row (`none` = missing), the
(user, coin) holding row, and the transactions table. -/
structure DbState where
  profile : Option ℚ
  holding : Option Holding
  transactions : List TxRecord
  deriving DecidableEq, Repr

/-- The order-row fields `execute_order` reads. -/
structure OrderRow where
  order_type : String
  quantity : ℚ
  deriving DecidableEq, Repr

/-- Fee rate `Decimal::new(1, 3)` = 0.001. -/
def fee_rate : ℚ := 1 / 1000

/-- Holding-deletion epsilon `Decimal::new(1, 6)` = 10⁻⁶. -/
def holding_epsilon : ℚ := 1 / 1000000

/-- Seed balance inserted when the profile row is missing. -/
def seed_balance : ℚ := 100000

/-- `execute_order` (execution.rs lines 10-199), one database
transaction.  `Except.error` models the transaction aborting with an
error; `Except.ok` carries the committed state.  The order row is
assumed present (the absent-order branch is a logged no-op). -/
def execute_order (db : DbState) (order : OrderRow) (execution_price : ℚ) :
    Except String DbState :=
  let quantity := order.quantity
  let total_amount := execution_price * quantity
  let trading_fee := total_amount * fee_rate
  -- profile lookup `FOR UPDATE`; insert a seed profile when missing
  let balance : ℚ := match db.profile with
    | some b => b
    | none => seed_balance
  let txn : TxRecord :=
    ⟨order.order_type, quantity, execution_price, total_amount⟩
  if order.order_type = "buy" then
    let total_cost := total_amount + trading_fee
    if balance < total_cost then
      Except.error "Insufficient balance"
    else
      let balance' := balance - total_cost
      let holding' : Option Holding := match db.holding with
        | some h =>
            let total_qty := h.quantity + quantity
            let old_cost := h.quantity * h.average_buy_price
            let new_cost := total_amount
            let new_avg := (old_cost + new_cost) / total_qty
            some ⟨total_qty, new_avg⟩
        | none => some ⟨quantity, execution_price⟩
      Except.ok ⟨some balance', holding', db.transactions ++ [txn]⟩
  else if order.order_type = "sell" then
    let current_qty : ℚ := match db.holding with
      | some h => h.quantity
      | none => 0
    -- `current_qty < quantity` only logs an error; the transaction continues
    let new_qty := current_qty - quantity
    let holding' : Option Holding := match db.holding with
      | some h =>
          if holding_epsilon < new_qty then some ⟨new_qty, h.average_buy_price⟩
          else none
      | none => none
    let proceeds := total_amount - trading_fee
    Except.ok ⟨some (balance + proceeds), holding', db.transactions ++ [txn]⟩
  else
    Except.ok ⟨some balance, db.holding, db.transactions ++ [txn]⟩

/-- Committing semantics: an aborted transaction leaves the database
unchanged (rollback), including any profile row inserted inside it. -/
def run_execute (db : DbState) (order : OrderRow) (execution_price : ℚ) :
    DbState :=
  match execute_order db order execution_price with
  | Except.ok s => s
  | Except.error _ => db

/-- Two executions in sequence (used for the buy-then-sell round trip). -/
def execute_two (db : DbState) (o₁ o₂ : OrderRow) (p₁ p₂ : ℚ) :
    Except String DbState :=
  match execute_order db o₁ p₁ with
  | Except.ok s => execute_order s o₂ p₂
  | Except.error e => Except.error e

/-- Balance the execution procedure sees after the ensure-profile step. -/
def effective_balance (db : DbState) : ℚ :=
  match db.profile with
  | some b => b
  | none => seed_balance

/-- Quantity held by the (user, coin) holding row, 0 when absent. -/
def held_qty (h : Option Holding) : ℚ :=
  match h with
  | some h₀ => h₀.quantity
  | none => 0

/- ===================================================================
   Section 2: the Matching Engine's per-tick scan
   (src/backend/src/services/matching_engine.rs, lines 126-161)
   =================================================================== -/

/-- An in-memory resting limit order. -/
structure LimitOrder where
  id : String
  order_type : String
  quantity : ℚ
  price : ℚ
  deriving DecidableEq, Repr

/-- The match predicate of the scan: `"buy" => current_price <= price`,
`"sell" => current_price >= price`, anything else never matches. -/
def is_match (current_price : ℚ) (o : LimitOrder) : Bool :=
  if o.order_type = "buy" then decide (current_price ≤ o.price)
  else if o.order_type = "sell" then decide (o.price ≤ current_price)
  else false

/-- The `executed_indices` vector built by the scan loop: the indices
(counting from `i`) of the orders that match, in scan order. -/
def executed_indices_from (current_price : ℚ) (i : ℕ) :
    List LimitOrder → List ℕ
  | [] => []
  | o :: rest =>
      if is_match current_price o then
        i :: executed_indices_from current_price (i + 1) rest
      else
        executed_indices_from current_price (i + 1) rest

/-- The orders the loop fires execution for, in scan order (one spawn
per matching index). -/
def fired_orders (current_price : ℚ) : List LimitOrder → List LimitOrder
  | [] => []
  | o :: rest =>
      if is_match current_price o then
        o :: fired_orders current_price rest
      else
        fired_orders current_price rest

/-- `for &i in executed_indices.iter().rev() { coin_orders.remove(i) }`:
remove the collected indices from the vector, in reverse order. -/
def remove_indices_rev (l : List LimitOrder) (idxs : List ℕ) :
    List LimitOrder :=
  idxs.reverse.foldl (fun acc i => acc.eraseIdx i) l

/-- The book entry for the coin after a full tick scan. -/
def remaining_orders (current_price : ℚ) (l : List LimitOrder) :
    List LimitOrder :=
  remove_indices_rev l (executed_indices_from current_price 0 l)

/- ===================================================================
   Section 3: the Indicator Kernel
   (src/backend/src/services/automation.rs, lines 1134-1293)
   =================================================================== -/

/-- The sequence of close-over-close changes `prices[i] - prices[i-1]`. -/
def price_deltas (prices : List ℚ) : List ℚ :=
  List.zipWith (· - ·) prices.tail prices

/-- Seed accumulation of `calculate_rsi` (lines 1143-1150): total gains
and total absolute losses over the first `period` changes. -/
def rsi_seed_sums (period : ℕ) (prices : List ℚ) : ℚ × ℚ :=
  ((price_deltas prices).take period).foldl
    (fun gl change =>
      if 0 < change then (gl.1 + change, gl.2) else (gl.1, gl.2 + |change|))
    (0, 0)

/-- Wilder smoothing step of `calculate_rsi` (lines 1156-1166). -/
def rsi_smooth_step (period : ℕ) (gl : ℚ × ℚ) (change : ℚ) : ℚ × ℚ :=
  let gain : ℚ := if 0 < change then change else 0
  let loss : ℚ := if 0 < change then 0 else |change|
  ((gl.1 * ((period - 1 : ℕ) : ℚ) + gain) / (period : ℚ),
   (gl.2 * ((period - 1 : ℕ) : ℚ) + loss) / (period : ℚ))

/-- Final smoothed average gain / average loss pair of `calculate_rsi`. -/
def rsi_averages (prices : List ℚ) (period : ℕ) : ℚ × ℚ :=
  let seeds := rsi_seed_sums period prices
  let start := (seeds.1 / (period : ℚ), seeds.2 / (period : ℚ))
  ((price_deltas prices).drop period).foldl (rsi_smooth_step period) start

/-- `calculate_rsi` (lines 1134-1176): Wilder's smoothed RSI. -/
def calculate_rsi (prices : List ℚ) (period : ℕ) : ℚ :=
  if prices.length ≤ period then 50
  else
    let avgs := rsi_averages prices period
    if avgs.2 = 0 then 100
    else
      let rs := avgs.1 / avgs.2
      100 - 100 / (1 + rs)

/-- `calculate_atr` (lines 1178-1197): mean absolute close-over-close
change, 0 when there are at most `period` closes. -/
def calculate_atr (prices : List ℚ) (period : ℕ) : ℚ :=
  if prices.length ≤ period then 0
  else
    let tr_sum := ((price_deltas prices).map (|·|)).sum
    tr_sum / ((prices.length - 1 : ℕ) : ℚ)

/-- `calculate_ema` (lines 1200-1216). -/
def calculate_ema (prices : List ℚ) (period : ℕ) : ℚ :=
  match prices with
  | [] => 0
  | p₀ :: rest =>
      let multiplier : ℚ := 2 / ((period + 1 : ℕ) : ℚ)
      rest.foldl (fun ema p => (p - ema) * multiplier + ema) p₀

/-- `calculate_macd` (lines 1219-1248): the signal line is approximated
as `macd * 0.7` in the source. -/
def calculate_macd (prices : List ℚ) : ℚ × ℚ × ℚ :=
  if prices.length < 26 then (0, 0, 0)
  else
    let ema12 := calculate_ema prices 12
    let ema26 := calculate_ema prices 26
    let macd_line := ema12 - ema26
    let signal_approx := macd_line * (7 / 10)
    let histogram := macd_line - signal_approx
    (macd_line, signal_approx, histogram)

/-- `calculate_bollinger_bands` (lines 1251-1275).  `sqrtFn` models
`Decimal::sqrt`, which returns `None` on negative input. -/
def calculate_bollinger_bands (sqrtFn : ℚ → Option ℚ) (prices : List ℚ)
    (period : ℕ) (std_dev : ℚ) : ℚ × ℚ × ℚ :=
  if prices.length < period then
    let avg : ℚ :=
      if prices.isEmpty then 0 else prices.sum / ((prices.length : ℕ) : ℚ)
    (avg, avg, avg)
  else
    let recent := prices.reverse.take period
    let sma := recent.sum / ((period : ℕ) : ℚ)
    let variance :=
      ((recent.map (fun p => (p - sma) * (p - sma))).sum) / ((period : ℕ) : ℚ)
    let std := (sqrtFn variance).getD 0
    (sma + std * std_dev, sma, sma - std * std_dev)

/-- Iterator `min` over a list (`None` on empty, folded pairwise). -/
def iter_min (l : List ℚ) : Option ℚ :=
  match l with
  | [] => none
  | h :: t => some (t.foldl min h)

/-- Iterator `max` over a list (`None` on empty, folded pairwise). -/
def iter_max (l : List ℚ) : Option ℚ :=
  match l with
  | [] => none
  | h :: t => some (t.foldl max h)

/-- `detect_support_resistance` (lines 1278-1293). -/
def detect_support_resistance (prices : List ℚ) (lookback : ℕ) : ℚ × ℚ :=
  if prices.length < lookback then
    let current := prices.getLast?.getD 0
    (current * (98 / 100), current * (102 / 100))
  else
    let recent := prices.reverse.take lookback
    ((iter_min recent).getD 0, (iter_max recent).getD 0)

/- ===================================================================
   Section 4: `analyze_coin`
   (src/backend/src/services/automation.rs, lines 781-1067)
   =================================================================== -/

/-- A recent trade as parsed from the exchange response. -/
structure TradeRec where
  price : ℚ
  qty : ℚ
  isBuyerMaker : Bool
  deriving DecidableEq, Repr

/-- Parsed order-book sides: lists of (price, quantity). -/
structure OrderBookData where
  bids : List (ℚ × ℚ)
  asks : List (ℚ × ℚ)
  deriving DecidableEq, Repr

/-- The analysis record produced per candidate coin. -/
structure CoinAnalysis where
  coin_id : String
  current_price : ℚ
  predicted_price_10m : ℚ
  price_change_percent : ℚ
  rsi : ℚ
  macd : ℚ
  macd_signal : ℚ
  macd_histogram : ℚ
  support_level : ℚ
  resistance_level : ℚ
  volume_ratio : ℚ
  entry_score : ℚ
  buy_pressure : ℚ
  sell_pressure : ℚ
  deriving DecidableEq, Repr

/-- `Decimal::MAX` = 2⁹⁶ − 1 at scale 0. -/
def decimal_MAX : ℚ := 79228162514264337593543950335

/-- Total traded quantity over the fetched recent trades
(the `total_vol` accumulator, lines 827-834). -/
def total_vol (trades : List TradeRec) : ℚ :=
  (trades.map TradeRec.qty).sum

/-- The `volume_ratio` computation (lines 837-848): the approximate 24h
average volume is `total_vol * 1440` whenever `total_vol > 0`, so the
ratio collapses to `total_vol / (total_vol·1440) · 1440`. -/
def volume_ratio (trades : List TradeRec) : ℚ :=
  let tv := total_vol trades
  let avg_volume_24h : ℚ := if 0 < tv then tv * 1440 else 1000000
  if 0 < avg_volume_24h then tv / avg_volume_24h * 1440 else 1

set_option maxHeartbeats 1600000 in
/-- `analyze_coin` (lines 781-1067) as a pure function of the fetched
market data.  `sqrtFn` models `Decimal::sqrt`. -/
def analyze_coin (sqrtFn : ℚ → Option ℚ) (coin_id : String)
    (current_price open_price btc_trend_score : ℚ)
    (order_book : OrderBookData) (trades : List TradeRec)
    (klines : List ℚ) : CoinAnalysis :=
  let rsi := calculate_rsi klines 14
  let macd3 := calculate_macd klines
  let macd := macd3.1
  let macd_signal := macd3.2.1
  let macd_histogram := macd3.2.2
  let bb3 := calculate_bollinger_bands sqrtFn klines 20 2
  let bb_middle := bb3.2.1
  let bb_lower := bb3.2.2
  let sr := detect_support_resistance klines 20
  let support_level := sr.1
  let resistance_level := sr.2
  let rsi_bias : ℚ :=
    if 70 < rsi then -(10 / 100)
    else if rsi < 30 then 5 / 100
    else if rsi < 45 then 2 / 100
    else 0
  -- VWAP over the recent trades
  let tv := total_vol trades
  let vol_price_sum := (trades.map (fun t => t.price * t.qty)).sum
  let vwap := if 0 < tv then vol_price_sum / tv else current_price
  let vr := volume_ratio trades
  let vwap_bias : ℚ := if current_price < vwap then 3 / 100 else -(2 / 100)
  -- order-book pressure and sell-wall detection
  let total_ask_qty := ((order_book.asks.take 20).map Prod.snd).sum
  let avg_ask_qty := total_ask_qty / 20
  let resistance_wall_detected :=
    (order_book.asks.take 10).any (fun a => decide (avg_ask_qty * 5 < a.2))
  let sell_pressure := ((order_book.asks.take 10).map (fun a => a.1 * a.2)).sum
  let wall_bias : ℚ := if resistance_wall_detected then -(5 / 100) else 0
  let buy_pressure := ((order_book.bids.take 10).map (fun b => b.1 * b.2)).sum
  -- price statistics over the recent trades
  let min_price := trades.foldl (fun m t => if t.price < m then t.price else m)
    decimal_MAX
  let max_price := trades.foldl (fun m t => if m < t.price then t.price else m) 0
  let sum_price := (trades.map TradeRec.price).sum
  let trade_count := trades.length
  let trade_sell_vol :=
    ((trades.filter (·.isBuyerMaker)).map (fun t => t.price * t.qty)).sum
  let trade_buy_vol :=
    ((trades.filter (fun t => !t.isBuyerMaker)).map (fun t => t.price * t.qty)).sum
  let volatility_pct : ℚ :=
    if 0 < max_price ∧ min_price < decimal_MAX then
      (max_price - min_price) / min_price
    else 0
  let avg_price :=
    if 0 < trade_count then sum_price / ((trade_count : ℕ) : ℚ)
    else current_price
  let velocity_bias : ℚ := if current_price < avg_price then 2 / 100 else -(1 / 100)
  let total_pressure := buy_pressure + sell_pressure
  let ob_momentum : ℚ :=
    if 0 < total_pressure then (buy_pressure - sell_pressure) / total_pressure
    else 0
  let total_trade_vol := trade_buy_vol + trade_sell_vol
  let trade_momentum : ℚ :=
    if 0 < total_trade_vol then (trade_buy_vol - trade_sell_vol) / total_trade_vol
    else 0
  let trend_24h : ℚ :=
    if 0 < open_price then (current_price - open_price) / open_price else 0
  let ob_factor : ℚ := 5 / 1000
  let trend_factor : ℚ := 6 / 10
  let trade_factor : ℚ := 1 / 10
  let base_momentum :=
    ob_momentum * ob_factor + trend_24h * trend_factor +
      trade_momentum * trade_factor
  let volatility_scaler : ℚ :=
    if 0 < volatility_pct then volatility_pct * 10 else 0
  let combined_bias :=
    (base_momentum + velocity_bias + rsi_bias + vwap_bias + wall_bias +
        btc_trend_score) * volatility_scaler
  let predicted_bias := combined_bias * 10
  let predicted_price_10m := current_price * (1 + predicted_bias)
  let price_change := predicted_price_10m - current_price
  let price_change_percent : ℚ :=
    if 0 < current_price then price_change / current_price * 100 else 0
  -- multi-indicator entry scoring
  let rsi_score : ℚ :=
    if rsi < 30 then 1
    else if rsi < 45 then 7 / 10
    else if rsi < 55 then 5 / 10
    else if rsi < 70 then 3 / 10
    else 0
  let macd_score : ℚ :=
    if macd_signal < macd ∧ 0 < macd_histogram then 1
    else if macd_signal < macd then 6 / 10
    else 2 / 10
  let bb_score : ℚ :=
    if 0 < bb_lower ∧ current_price ≤ bb_lower * (101 / 100) then 1
    else if current_price < bb_middle then 6 / 10
    else 3 / 10
  let volume_score : ℚ :=
    if 3 / 2 < vr then 1
    else if 6 / 5 < vr then 7 / 10
    else if 1 < vr then 5 / 10
    else 2 / 10
  let support_score : ℚ :=
    if 0 < support_level then
      let distance_to_support := |(current_price - support_level) / support_level|
      if distance_to_support < 1 / 100 then 1
      else if distance_to_support < 2 / 100 then 7 / 10
      else if distance_to_support < 5 / 100 then 4 / 10
      else 1 / 10
    else 0
  let entry_score :=
    rsi_score * (25 / 100) + macd_score * (20 / 100) + bb_score * (15 / 100) +
      volume_score * (20 / 100) + support_score * (20 / 100)
  { coin_id := coin_id
    current_price := current_price
    predicted_price_10m := predicted_price_10m
    price_change_percent := price_change_percent
    rsi := rsi
    macd := macd
    macd_signal := macd_signal
    macd_histogram := macd_histogram
    support_level := support_level
    resistance_level := resistance_level
    volume_ratio := vr
    entry_score := entry_score
    buy_pressure := buy_pressure
    sell_pressure := sell_pressure }

/- ===================================================================
   Section 5: the Strategy Selector inside `handle_entry`
   (src/backend/src/services/automation.rs, lines 670-698)
   =================================================================== -/

/-- The candidate filter (lines 673-688): reject overbought RSI, weak
entry score, weak volume, or a predicted crash. -/
def passes_filter (a : CoinAnalysis) : Bool :=
  if 70 < a.rsi then false
  else if a.entry_score < 7 / 10 then false
  else if a.volume_ratio < 6 / 5 then false
  else decide (-5 < a.price_change_percent)

/-- The `max_by` comparator (lines 689-698): entry score ascending,
breaking equal scores by reversed RSI (lower RSI compares greater). -/
def cmp_analysis (a b : CoinAnalysis) : Ordering :=
  if a.entry_score < b.entry_score then Ordering.lt
  else if b.entry_score < a.entry_score then Ordering.gt
  else if b.rsi < a.rsi then Ordering.lt
  else if a.rsi < b.rsi then Ordering.gt
  else Ordering.eq

/-- One step of Rust's `Iterator::max_by` fold: keep the current
maximum, the later element winning ties. -/
def max_step (acc : Option CoinAnalysis) (x : CoinAnalysis) :
    Option CoinAnalysis :=
  match acc with
  | none => some x
  | some y => if cmp_analysis y x = Ordering.gt then some y else some x

/-- Rust's `Iterator::max_by`: fold over the candidates, the later
element winning ties. -/
def max_by_last (l : List CoinAnalysis) : Option CoinAnalysis :=
  l.foldl max_step none

/-- `best_coin` (lines 671-698): filter then `max_by`. -/
def handle_entry_select (analyses : List CoinAnalysis) : Option CoinAnalysis :=
  max_by_last (analyses.filter passes_filter)

/- ===================================================================
   Section 6: the Strategy State Machine
   (src/backend/src/services/automation.rs, lines 201-779 and 435-578)
   =================================================================== -/

/-- A `strategies` table row (the fields the engine reads/writes). -/
structure StrategyRow where
  status : String
  amount : ℚ
  profit_percentage : ℚ
  total_iterations : ℤ
  iterations_completed : ℤ
  start_time : ℤ
  duration_minutes : ℤ
  end_time : Option ℤ
  current_coin_id : Option String
  current_order_id : Option ℕ
  entry_price : Option ℚ
  high_water_mark : Option ℚ
  profit_target_1_sold : Option Bool
  profit_target_2_sold : Option Bool
  profit_target_3_sold : Option Bool
  break_even_activated : Option Bool
  deriving DecidableEq, Repr

/-- An `orders` row inserted by the engine during one cycle. -/
structure OrderInsert where
  order_type : String
  order_mode : String
  quantity : ℚ
  price_per_unit : ℚ
  total_amount : ℚ
  order_status : String
  deriving DecidableEq, Repr

/-- The tracked-order row read by `check_order_status`. -/
structure OrderStatusRow where
  order_status : String
  order_type : String
  price_per_unit : Option ℚ
  quantity : ℚ
  deriving DecidableEq, Repr

/-- External data one strategy's dispatch consumes during a cycle:
the BTC trend, the per-candidate analysis results, the coin's current
price, the 20 recent closes used for ATR, the tracked-order row, and a
fresh order id. -/
structure StrategyEnv where
  btc_trend : ℚ
  analyses : List CoinAnalysis
  current_price : Option ℚ
  klines_atr : List ℚ
  order_row : Option OrderStatusRow
  fresh_order_id : ℕ

/-- Phase 2 of `process_strategies` (lines 216-250): stop the strategy
as `completed` when the wall clock reached `end_time` (defaulting to
`start + duration`) or when `iterations_completed ≥ total_iterations`. -/
def check_limits (now : ℤ) (s : StrategyRow) : StrategyRow :=
  let endT : ℤ := match s.end_time with
    | some e => e
    | none => s.start_time + s.duration_minutes
  if endT ≤ now then { s with status := "completed" }
  else if s.total_iterations ≤ s.iterations_completed then
    { s with status := "completed" }
  else s

/-- High-water-mark update (lines 452-463). -/
def updated_hwm (high_water_mark current_price : ℚ) : ℚ :=
  if high_water_mark < current_price then current_price else high_water_mark

/-- The stop computation of `handle_active_trade` (lines 480-500),
taking the already-updated high-water mark. -/
def stop_price (entry_price high_water_mark current_price atr : ℚ) : ℚ :=
  let profit_pct := (current_price - entry_price) / entry_price * 100
  if 1 / 2 < profit_pct then
    if 0 < atr then
      let dynamic_stop := high_water_mark - atr * 2
      if current_price ≤ dynamic_stop then current_price * (999 / 1000)
      else dynamic_stop
    else high_water_mark * (995 / 1000)
  else
    if 0 < atr then entry_price - atr * 3
    else entry_price * (97 / 100)

/-- The exit decision (lines 507-516): sell on stop hit or target hit. -/
def should_sell (entry_price high_water_mark current_price atr target_pct : ℚ) :
    Bool :=
  decide (current_price ≤ stop_price entry_price high_water_mark current_price atr) ||
    decide (entry_price * (1 + target_pct / 100) ≤ current_price)

/-- `handle_active_trade` (lines 435-578) as a state step: returns the
updated strategy row and the orders inserted. -/
def handle_active_trade_step (s : StrategyRow) (env : StrategyEnv) :
    StrategyRow × List OrderInsert :=
  match env.current_price with
  | none => (s, [])
  | some current_price =>
    let entry_price := s.entry_price.getD 0
    if entry_price ≤ 0 then (s, [])
    else
      let hwm₀ := s.high_water_mark.getD entry_price
      let high_water_mark := updated_hwm hwm₀ current_price
      let s₁ :=
        if hwm₀ < current_price then { s with high_water_mark := some high_water_mark }
        else s
      let pt1 := s.profit_target_1_sold.getD false
      let pt2 := s.profit_target_2_sold.getD false
      let pt3 := s.profit_target_3_sold.getD false
      let atr := calculate_atr env.klines_atr 14
      if should_sell entry_price high_water_mark current_price atr
          s.profit_percentage then
        let total_quantity := s.amount / entry_price
        let sold_quantity :=
          (if pt1 then total_quantity * (25 / 100) else 0) +
            (if pt2 then total_quantity * (25 / 100) else 0) +
            (if pt3 then total_quantity * (25 / 100) else 0)
        let remaining_quantity := total_quantity - sold_quantity
        if 0 < remaining_quantity then
          ({ s₁ with
              current_coin_id := none
              current_order_id := none
              entry_price := none
              high_water_mark := none
              profit_target_1_sold := none
              profit_target_2_sold := none
              profit_target_3_sold := none
              break_even_activated := none
              iterations_completed := s₁.iterations_completed + 1 },
           [⟨"sell", "market", remaining_quantity, current_price,
             current_price * remaining_quantity, "completed"⟩])
        else (s₁, [])
      else (s₁, [])

/-- `handle_entry` (lines 580-779) as a state step.  The pre-filtered
candidates' analysis results arrive in `env.analyses`; the re-read
race guard checks the row's status before placing the buy. -/
def handle_entry_step (s : StrategyRow) (env : StrategyEnv) :
    StrategyRow × List OrderInsert :=
  if env.btc_trend < -(1 / 100) then (s, [])
  else
    match handle_entry_select env.analyses with
    | none => (s, [])
    | some best =>
      if s.status = "running" then
        ({ s with
            current_coin_id := some best.coin_id
            current_order_id := none
            entry_price := some best.current_price
            high_water_mark := some best.current_price },
         [⟨"buy", "market", s.amount / best.current_price, best.current_price,
           s.amount, "completed"⟩])
      else (s, [])

/-- `check_order_status` (lines 292-433) as a state step. -/
def check_order_status_step (s : StrategyRow) (env : StrategyEnv) :
    StrategyRow × List OrderInsert :=
  match env.order_row with
  | none => ({ s with current_order_id := none }, [])
  | some o =>
    if o.order_status = "completed" then
      if o.order_type = "buy" then
        let buy_price := o.price_per_unit.getD 0
        if buy_price ≤ 0 then (s, [])
        else
          let multiplier := 1 + s.profit_percentage / 100
          let target_price := buy_price * multiplier
          ({ s with
              current_order_id := some env.fresh_order_id
              entry_price := some buy_price },
           [⟨"sell", "limit", o.quantity, target_price,
             target_price * o.quantity, "pending"⟩])
      else if o.order_type = "sell" then
        ({ s with
            current_coin_id := none
            current_order_id := none
            entry_price := none
            iterations_completed := s.iterations_completed + 1 }, [])
      else (s, [])
    else if o.order_status = "cancelled" ∨ o.order_status = "failed" then
      if o.order_type = "buy" then
        ({ s with
            current_coin_id := none
            current_order_id := none
            entry_price := none }, [])
      else if o.order_type = "sell" then
        ({ s with current_order_id := none }, [])
      else (s, [])
    else (s, [])

/-- The phase-4 dispatch (lines 276-286). -/
def dispatch (s : StrategyRow) (env : StrategyEnv) :
    StrategyRow × List OrderInsert :=
  match s.current_order_id with
  | some _ => check_order_status_step s env
  | none =>
    match s.current_coin_id with
    | some _ => handle_active_trade_step s env
    | none => handle_entry_step s env

/-- One `process_strategies` cycle restricted to a single strategy row
drawn from the running-strategies snapshot: the phase-2 limit checks
run first, then the per-strategy re-read with the `status = 'running'`
guard either skips the strategy or dispatches it.  (Other strategies'
handlers mutate only their own rows, so the re-read observes exactly
the phase-2 result for this row.) -/
def process_strategy (now : ℤ) (s : StrategyRow) (env : StrategyEnv) :
    StrategyRow × List OrderInsert :=
  let s₁ := check_limits now s
  if s₁.status = "running" then dispatch s₁ env else (s₁, [])

/- ===================================================================
   Theorems
   =================================================================== -/

/-- Cost identity used throughout: `total + fee = p·q·1.001`. -/
theorem total_cost_eq (p q : ℚ) : p * q + p * q * fee_rate = p * q * (1001 / 1000) := by
  unfold fee_rate; ring

/-- Proceeds identity: `total − fee = p·q·0.999`. -/
theorem proceeds_eq (p q : ℚ) : p * q - p * q * fee_rate = p * q * (999 / 1000) := by
  unfold fee_rate; ring

/-- C1: a buy executed at price `p` and quantity `q` with sufficient
balance debits exactly `p·q·1.001`, raises the holding quantity by
exactly `q`, and recomputes the average cost-weighted: `(q, p)` when no
holding existed, `(q₀+q, (q₀·avg₀ + p·q)/(q₀+q))` otherwise. -/
theorem buy_settlement (b p q : ℚ) (hold : Option Holding)
    (txns : List TxRecord) (h : p * q * (1001 / 1000) ≤ b) :
    execute_order ⟨some b, hold, txns⟩ ⟨"buy", q⟩ p =
      Except.ok ⟨some (b - p * q * (1001 / 1000)),
        some (match hold with
          | none => ⟨q, p⟩
          | some h₀ => ⟨h₀.quantity + q,
              (h₀.quantity * h₀.average_buy_price + p * q) / (h₀.quantity + q)⟩),
        txns ++ [⟨"buy", q, p, p * q⟩]⟩ := by
  have hnot : ¬ (b < p * q + p * q * fee_rate) := by
    rw [total_cost_eq]; exact not_lt.mpr h
  have hbal : b - (p * q + p * q * fee_rate) = b - p * q * (1001 / 1000) := by
    rw [total_cost_eq]
  cases hold with
  | none => simp only [execute_order, if_neg hnot, reduceIte, hbal]
  | some h₀ => simp only [execute_order, if_neg hnot, reduceIte, hbal]

/-- Witness for C1 at a concrete input. -/
theorem buy_settlement_witness :
    (10 * 1 * (1001 / 1000) : ℚ) ≤ 2000 ∧
    execute_order ⟨some 2000, none, []⟩ ⟨"buy", 1⟩ 10 =
      Except.ok ⟨some (2000 - 10 * 1 * (1001 / 1000)), some ⟨1, 10⟩,
        [⟨"buy", 1, 10, 10 * 1⟩]⟩ :=
  ⟨by norm_num, buy_settlement 2000 10 1 none [] (by norm_num)⟩

/-- C2: a buy fails with the insufficient-balance error exactly when the
effective balance (the profile balance, or the seed balance for a
profile created inside the transaction) is below `p·q·1.001`; the abort
rolls the whole transaction back, leaving balance, holdings and the
transactions table — including a profile row created inside the same
transaction — unchanged. -/
theorem buy_insufficient_balance (db : DbState) (q p : ℚ) :
    (execute_order db ⟨"buy", q⟩ p = Except.error "Insufficient balance" ↔
      effective_balance db < p * q * (1001 / 1000)) ∧
    (effective_balance db < p * q * (1001 / 1000) →
      run_execute db ⟨"buy", q⟩ p = db) := by
  obtain ⟨prof, hold, txns⟩ := db
  by_cases hb : effective_balance ⟨prof, hold, txns⟩ < p * q * (1001 / 1000)
  · have hb' : effective_balance ⟨prof, hold, txns⟩ < p * q + p * q * fee_rate := by
      rw [total_cost_eq]; exact hb
    refine ⟨⟨fun _ => hb, fun _ => ?_⟩, fun _ => ?_⟩
    · cases prof <;>
        (simp only [effective_balance] at hb'
         simp only [execute_order, reduceIte, if_pos hb'])
    · cases prof <;>
        (simp only [effective_balance] at hb'
         simp only [run_execute, execute_order, reduceIte, if_pos hb'])
  · have hb' : ¬ effective_balance ⟨prof, hold, txns⟩ < p * q + p * q * fee_rate := by
      rw [total_cost_eq]; exact hb
    refine ⟨⟨fun herr => absurd herr ?_, fun h2 => absurd h2 hb⟩, fun h2 => absurd h2 hb⟩
    cases prof <;>
      (simp only [effective_balance] at hb'
       simp only [execute_order, reduceIte, if_neg hb']
       cases hold <;> simp)

/-- Witness for C2 at a concrete input: a missing profile is seeded with
100000, the buy of 1 unit at 200000 aborts, and the rollback leaves the
profile row uncreated. -/
theorem buy_insufficient_balance_witness :
    run_execute ⟨none, none, []⟩ ⟨"buy", 1⟩ 200000 = ⟨none, none, []⟩ ∧
    execute_order ⟨none, none, []⟩ ⟨"buy", 1⟩ 200000 =
      Except.error "Insufficient balance" :=
  ⟨(buy_insufficient_balance ⟨none, none, []⟩ 1 200000).2
      (by norm_num [effective_balance, seed_balance]),
   (buy_insufficient_balance ⟨none, none, []⟩ 1 200000).1.mpr
      (by norm_num [effective_balance, seed_balance])⟩

/-- C3 counterexample: selling 2 units at price 10 while holding only 1
credits the balance with `10·2·0.999 = 19.98` — the proceeds for the
full order quantity — not `10·1·0.999 = 9.99` for the quantity actually
available, so the claim's credited amount is wrong. -/
theorem sell_shortfall_counterexample :
    execute_order ⟨some 100, some ⟨1, 5⟩, []⟩ ⟨"sell", 2⟩ 10 =
      Except.ok ⟨some (100 + 10 * 2 * (999 / 1000)), none,
        [⟨"sell", 2, 10, 20⟩]⟩ ∧
    (100 + 10 * 2 * (999 / 1000) : ℚ) ≠ 100 + 10 * 1 * (999 / 1000) := by
  constructor
  · simp only [execute_order, fee_rate, holding_epsilon, String.reduceEq, reduceIte]
    norm_num
  · norm_num

/-- C3 amended: on a sell whose order quantity exceeds the held quantity
(or with no holding row), the transaction continues, the holding row is
deleted (the remainder is negative, hence ≤ 10⁻⁶), and the balance is
credited `total − fee = p·q·0.999` for the full order quantity. -/
theorem sell_shortfall_amended (b p q : ℚ) (hold : Option Holding)
    (txns : List TxRecord) (h : held_qty hold < q) :
    execute_order ⟨some b, hold, txns⟩ ⟨"sell", q⟩ p =
      Except.ok ⟨some (b + p * q * (999 / 1000)), none,
        txns ++ [⟨"sell", q, p, p * q⟩]⟩ := by
  have hbal : b + (p * q - p * q * fee_rate) = b + p * q * (999 / 1000) := by
    rw [proceeds_eq]
  cases hold with
  | none => simp only [execute_order, String.reduceEq, reduceIte, hbal]
  | some h₀ =>
      have hqty : ¬ holding_epsilon < h₀.quantity - q := by
        simp only [held_qty] at h
        rw [not_lt]
        have : h₀.quantity - q < 0 := by linarith
        unfold holding_epsilon
        linarith
      simp only [execute_order, String.reduceEq, reduceIte, if_neg hqty, hbal]

/-- Witness for the amended C3 at a concrete input. -/
theorem sell_shortfall_amended_witness :
    held_qty (some ⟨1, 5⟩) < 2 ∧
    execute_order ⟨some 100, some ⟨1, 5⟩, []⟩ ⟨"sell", 2⟩ 10 =
      Except.ok ⟨some (100 + 10 * 2 * (999 / 1000)), none,
        [⟨"sell", 2, 10, 10 * 2⟩]⟩ :=
  ⟨by norm_num [held_qty],
   sell_shortfall_amended 100 10 2 (some ⟨1, 5⟩) [] (by norm_num [held_qty])⟩

/-- C4 counterexample: starting from balance 100 and a prior holding of
1 unit at average 10, buying 1 unit at 20 and selling it back at 20
leaves the balance at `100 − 2·1·20·0.001 = 99.96` but the holding at
average 15, not the prior average 10 — the holdings are not restored. -/
theorem roundtrip_counterexample :
    execute_two ⟨some 100, some ⟨1, 10⟩, []⟩ ⟨"buy", 1⟩ ⟨"sell", 1⟩ 20 20 =
      Except.ok ⟨some (100 - 2 * 1 * 20 * (1 / 1000)), some ⟨1, 15⟩,
        [⟨"buy", 1, 20, 20⟩, ⟨"sell", 1, 20, 20⟩]⟩ ∧
    (some (⟨1, 15⟩ : Holding) ≠ some (⟨1, 10⟩ : Holding)) := by
  constructor
  · simp only [execute_two, execute_order, fee_rate, holding_epsilon, String.reduceEq, reduceIte]
    norm_num
  · simp only [ne_eq, Option.some.injEq, Holding.mk.injEq]
    norm_num

/-- C4 amended: a buy of `q` at `p` followed by a sell of `q` at `p`
(balance sufficient for the buy) leaves the balance at exactly
`original − 2·q·p·0.001`; the holding is restored only when no prior
row existed (the row is deleted again).  With a prior holding
`(q₀, avg₀)`, the quantity returns to `q₀` (row deleted when
`q₀ ≤ 10⁻⁶`) but the average remains the post-buy cost-weighted value
`(q₀·avg₀ + p·q)/(q₀ + q)`. -/
theorem roundtrip_amended (b p q : ℚ) (hold : Option Holding)
    (txns : List TxRecord) (h : p * q * (1001 / 1000) ≤ b) :
    execute_two ⟨some b, hold, txns⟩ ⟨"buy", q⟩ ⟨"sell", q⟩ p p =
      Except.ok ⟨some (b - 2 * q * p * (1 / 1000)),
        (match hold with
         | none => none
         | some h₀ =>
             if holding_epsilon < h₀.quantity then
               some ⟨h₀.quantity,
                 (h₀.quantity * h₀.average_buy_price + p * q) / (h₀.quantity + q)⟩
             else none),
        txns ++ [⟨"buy", q, p, p * q⟩, ⟨"sell", q, p, p * q⟩]⟩ := by
  have hnot : ¬ (b < p * q + p * q * fee_rate) := by
    rw [total_cost_eq]; exact not_lt.mpr h
  have hbal : b - (p * q + p * q * fee_rate) + (p * q - p * q * fee_rate) =
      b - 2 * q * p * (1 / 1000) := by
    unfold fee_rate; ring
  cases hold with
  | none =>
      simp only [execute_two, execute_order, String.reduceEq, reduceIte, if_neg hnot, hbal]
      have h0 : ¬ holding_epsilon < q - q := by
        unfold holding_epsilon; norm_num
      simp only [if_neg h0, List.append_assoc, List.cons_append, List.nil_append]
  | some h₀ =>
      simp only [execute_two, execute_order, String.reduceEq, reduceIte, if_neg hnot, hbal]
      have hq : h₀.quantity + q - q = h₀.quantity := by ring
      simp only [hq, List.append_assoc, List.cons_append, List.nil_append]

/-- Witness for the amended C4 at a concrete input. -/
theorem roundtrip_amended_witness :
    (20 * 1 * (1001 / 1000) : ℚ) ≤ 100 ∧
    execute_two ⟨some 100, some ⟨1, 10⟩, []⟩ ⟨"buy", 1⟩ ⟨"sell", 1⟩ 20 20 =
      Except.ok ⟨some (100 - 2 * 1 * 20 * (1 / 1000)),
        (if holding_epsilon < (1 : ℚ) then
           some ⟨1, (1 * 10 + 20 * 1) / (1 + 1)⟩
         else none),
        [⟨"buy", 1, 20, 20 * 1⟩, ⟨"sell", 1, 20, 20 * 1⟩]⟩ :=
  ⟨by norm_num, roundtrip_amended 100 20 1 (some ⟨1, 10⟩) [] (by norm_num)⟩

/-- Shifting the scan's starting index shifts every collected index. -/
theorem executed_indices_from_succ (p : ℚ) (l : List LimitOrder) :
    ∀ i, executed_indices_from p (i + 1) l =
      (executed_indices_from p i l).map (· + 1) := by
  induction l with
  | nil => intro i; rfl
  | cons o rest ih =>
      intro i
      by_cases hm : is_match p o
      · simp only [executed_indices_from, if_pos hm, List.map_cons, ih (i + 1)]
      · simp only [executed_indices_from, if_neg hm, ih (i + 1)]

/-- Erasing only indices ≥ 1 leaves the head untouched. -/
theorem foldl_eraseIdx_map_succ (J : List ℕ) :
    ∀ (a : LimitOrder) (l : List LimitOrder),
      (J.map (· + 1)).foldl (fun acc i => acc.eraseIdx i) (a :: l) =
        a :: J.foldl (fun acc i => acc.eraseIdx i) l := by
  induction J with
  | nil => intro a l; rfl
  | cons j J ih =>
      intro a l
      simp only [List.map_cons, List.foldl_cons, List.eraseIdx_cons_succ]
      exact ih a (l.eraseIdx j)

/-- The reverse-order index removal of the scan is stable filtering:
exactly the matching orders are removed and the relative order of the
remaining orders is preserved. -/
theorem remaining_orders_eq_filter (p : ℚ) (l : List LimitOrder) :
    remaining_orders p l = l.filter (fun o => ! is_match p o) := by
  induction l with
  | nil => rfl
  | cons o rest ih =>
      unfold remaining_orders remove_indices_rev at *
      by_cases hm : is_match p o
      · have he : executed_indices_from p 0 (o :: rest) =
            0 :: (executed_indices_from p 0 rest).map (· + 1) := by
          simp [executed_indices_from, hm, executed_indices_from_succ p rest 0]
        rw [he, List.reverse_cons, ← List.map_reverse, List.foldl_append,
          foldl_eraseIdx_map_succ, List.foldl_cons, List.foldl_nil,
          List.eraseIdx_cons_zero, ih, List.filter_cons]
        simp [hm]
      · have he : executed_indices_from p 0 (o :: rest) =
            (executed_indices_from p 0 rest).map (· + 1) := by
          simp [executed_indices_from, hm, executed_indices_from_succ p rest 0]
        rw [he, ← List.map_reverse, foldl_eraseIdx_map_succ, ih, List.filter_cons]
        simp [hm]

/-- The fired orders are the matching ones, in scan order. -/
theorem fired_orders_eq_filter (p : ℚ) (l : List LimitOrder) :
    fired_orders p l = l.filter (is_match p) := by
  induction l with
  | nil => rfl
  | cons o rest ih =>
      by_cases hm : is_match p o <;>
        simp [fired_orders, List.filter_cons, hm, ih]

/-- Splitting a list by a predicate preserves multiplicities. -/
theorem count_filter_add_count_filter_not (P : LimitOrder → Bool)
    (l : List LimitOrder) (o : LimitOrder) :
    (l.filter P).count o + (l.filter (fun x => ! P x)).count o = l.count o := by
  induction l with
  | nil => rfl
  | cons a t ih =>
      by_cases hp : P a <;>
        [skip; skip] <;>
        by_cases ha : o = a
      · subst ha
        simp only [List.filter_cons, hp, Bool.not_true, Bool.false_eq_true, reduceIte,
          List.count_cons, beq_self_eq_true, if_true]
        omega
      · simp only [List.filter_cons, hp, Bool.not_true, Bool.false_eq_true, reduceIte,
          List.count_cons, beq_iff_eq, ha, if_false]
        omega
      · subst ha
        simp only [List.filter_cons, hp, Bool.not_false, Bool.false_eq_true, reduceIte,
          List.count_cons, beq_self_eq_true, if_true]
        omega
      · simp only [List.filter_cons, hp, Bool.not_false, Bool.false_eq_true, reduceIte,
          List.count_cons, beq_iff_eq, ha, if_false]
        omega

/-- Unfolding of the match predicate. -/
theorem is_match_iff (p : ℚ) (o : LimitOrder) :
    is_match p o = true ↔
      (o.order_type = "buy" ∧ p ≤ o.price) ∨
        (o.order_type = "sell" ∧ o.price ≤ p) := by
  unfold is_match
  by_cases hb : o.order_type = "buy"
  · simp [hb]
  · by_cases hs : o.order_type = "sell" <;> simp [hb, hs]

/-- C5: a tick scan at `market_price` fires execution for exactly the
resting orders satisfying
`(buy ∧ market ≤ limit) ∨ (sell ∧ market ≥ limit)`, each such order is
fired once (multiplicities are conserved), and the relative order of
the remaining orders is preserved (the book becomes the stable filter
of the non-matching orders). -/
theorem matching_scan_spec (p : ℚ) (l : List LimitOrder) :
    fired_orders p l = l.filter (is_match p) ∧
    remaining_orders p l = l.filter (fun o => ! is_match p o) ∧
    (∀ o ∈ fired_orders p l,
      (o.order_type = "buy" ∧ p ≤ o.price) ∨
        (o.order_type = "sell" ∧ o.price ≤ p)) ∧
    (∀ o, (fired_orders p l).count o + (remaining_orders p l).count o =
      l.count o) := by
  refine ⟨fired_orders_eq_filter p l, remaining_orders_eq_filter p l, ?_, ?_⟩
  · intro o ho
    rw [fired_orders_eq_filter] at ho
    exact (is_match_iff p o).mp (List.of_mem_filter ho)
  · intro o
    rw [fired_orders_eq_filter, remaining_orders_eq_filter]
    exact count_filter_add_count_filter_not (is_match p) l o

/-- Deltas of a constant price sequence are all zero. -/
theorem price_deltas_replicate (n : ℕ) (p : ℚ) :
    price_deltas (List.replicate n p) = List.replicate (n - 1) 0 := by
  unfold price_deltas
  rw [List.tail_replicate, List.zipWith_replicate, sub_self]
  congr 1
  omega

/-- The RSI seed accumulator is unmoved by zero changes. -/
theorem rsi_seed_foldl_zero (k : ℕ) :
    ∀ gl : ℚ × ℚ,
      (List.replicate k (0 : ℚ)).foldl
        (fun gl change =>
          if 0 < change then (gl.1 + change, gl.2) else (gl.1, gl.2 + |change|))
        gl = gl := by
  induction k with
  | zero => intro gl; rfl
  | succ k ih =>
      intro gl
      simp only [List.replicate_succ, List.foldl_cons, lt_self_iff_false,
        if_false, abs_zero, add_zero]
      exact ih gl

/-- Wilder smoothing keeps a zero average pair at zero. -/
theorem rsi_smooth_foldl_zero (period : ℕ) (k : ℕ) :
    (List.replicate k (0 : ℚ)).foldl (rsi_smooth_step period) (0, 0) = (0, 0) := by
  induction k with
  | zero => rfl
  | succ k ih =>
      simp only [List.replicate_succ, List.foldl_cons, rsi_smooth_step,
        lt_self_iff_false, if_false, abs_zero, zero_mul, add_zero, zero_div]
      exact ih

/-- C8: `calculate_rsi` returns the neutral 50 whenever there are at
most 14 closes; with more data it returns 100 when the smoothed average
loss is 0 and `100 − 100/(1 + avg_gain/avg_loss)` otherwise, where the
averages are seeded over the first 14 deltas and smoothed by Wilder's
recurrence `avg ← (avg·13 + x)/14` over the remaining deltas; on a
constant price sequence the result is 50 or 100, never undefined. -/
theorem rsi_spec :
    (∀ prices : List ℚ, prices.length ≤ 14 → calculate_rsi prices 14 = 50) ∧
    (∀ prices : List ℚ, rsi_averages prices 14 =
      ((price_deltas prices).drop 14).foldl
        (fun gl c =>
          ((gl.1 * 13 + if 0 < c then c else 0) / 14,
           (gl.2 * 13 + if 0 < c then 0 else |c|) / 14))
        ((rsi_seed_sums 14 prices).1 / 14, (rsi_seed_sums 14 prices).2 / 14)) ∧
    (∀ prices : List ℚ, 14 < prices.length →
      ((rsi_averages prices 14).2 = 0 → calculate_rsi prices 14 = 100) ∧
      ((rsi_averages prices 14).2 ≠ 0 → calculate_rsi prices 14 =
        100 - 100 / (1 + (rsi_averages prices 14).1 / (rsi_averages prices 14).2))) ∧
    (∀ (p : ℚ) (n : ℕ), calculate_rsi (List.replicate n p) 14 =
      if n ≤ 14 then 50 else 100) := by
  refine ⟨?_, ?_, ?_, ?_⟩
  · intro prices hlen
    simp [calculate_rsi, hlen]
  · intro prices
    unfold rsi_averages
    congr 1
  · intro prices hlen
    have hlen' : ¬ prices.length ≤ 14 := not_le.mpr hlen
    constructor
    · intro hz
      simp [calculate_rsi, hlen', hz]
    · intro hz
      simp [calculate_rsi, hlen', hz]
  · intro p n
    by_cases hn : n ≤ 14
    · have : (List.replicate n p).length ≤ 14 := by
        rw [List.length_replicate]; exact hn
      simp [calculate_rsi, this, hn]
    · have hlen' : ¬ (List.replicate n p).length ≤ 14 := by
        rw [List.length_replicate]; exact hn
      have havg : rsi_averages (List.replicate n p) 14 = (0, 0) := by
        unfold rsi_averages rsi_seed_sums
        rw [price_deltas_replicate, List.take_replicate, List.drop_replicate,
          rsi_seed_foldl_zero]
        simp only [zero_div]
        exact rsi_smooth_foldl_zero 14 (n - 1 - 14)
      simp [calculate_rsi, hlen', havg, hn]

/-- Unfolding of the candidate filter. -/
theorem passes_filter_iff (a : CoinAnalysis) :
    passes_filter a = true ↔
      (a.rsi ≤ 70 ∧ 7 / 10 ≤ a.entry_score ∧ 6 / 5 ≤ a.volume_ratio ∧
        -5 < a.price_change_percent) := by
  unfold passes_filter
  split_ifs with h1 h2 h3
  · simp only [Bool.false_eq_true, false_iff]
    rintro ⟨hr, -⟩
    exact absurd h1 (not_lt.mpr hr)
  · simp only [Bool.false_eq_true, false_iff]
    rintro ⟨-, hs, -⟩
    exact absurd hs (not_le.mpr h2)
  · simp only [Bool.false_eq_true, false_iff]
    rintro ⟨-, -, hv, -⟩
    exact absurd hv (not_le.mpr h3)
  · simp only [decide_eq_true_eq]
    exact ⟨fun hp => ⟨not_lt.mp h1, not_lt.mp h2, not_lt.mp h3, hp⟩,
           fun h => h.2.2.2⟩

/-- The comparator answers `gt` exactly for a strictly better candidate:
higher entry score, or equal score and strictly lower RSI. -/
theorem cmp_analysis_gt_iff (a b : CoinAnalysis) :
    cmp_analysis a b = Ordering.gt ↔
      (b.entry_score < a.entry_score ∨
        (a.entry_score = b.entry_score ∧ a.rsi < b.rsi)) := by
  unfold cmp_analysis
  split_ifs with h1 h2 h3 h4
  · simp only [reduceCtorEq, false_iff]
    rintro (h | ⟨he, -⟩) <;> linarith
  · simp only [true_iff]
    exact Or.inl h2
  · simp only [reduceCtorEq, false_iff]
    rintro (h | ⟨-, hr⟩) <;> linarith
  · simp only [true_iff]
    exact Or.inr ⟨le_antisymm (not_lt.mp h2) (not_lt.mp h1), h4⟩
  · simp only [reduceCtorEq, false_iff]
    rintro (h | ⟨-, hr⟩) <;> linarith

/-- Negation of the comparator's `gt` answer, in order form. -/
theorem cmp_analysis_not_gt_iff (a b : CoinAnalysis) :
    cmp_analysis a b ≠ Ordering.gt ↔
      (a.entry_score < b.entry_score ∨
        (a.entry_score = b.entry_score ∧ b.rsi ≤ a.rsi)) := by
  rw [Ne, cmp_analysis_gt_iff]
  constructor
  · intro h
    rcases lt_trichotomy a.entry_score b.entry_score with hs | hs | hs
    · exact Or.inl hs
    · refine Or.inr ⟨hs, ?_⟩
      by_contra hr
      exact h (Or.inr ⟨hs, not_le.mp hr⟩)
    · exact absurd (Or.inl hs) h
  · rintro (hs | ⟨hs, hr⟩) (hgt | ⟨he, hrs⟩) <;> linarith

/-- The comparator's non-strict order is transitive. -/
theorem cmp_analysis_le_trans {a b c : CoinAnalysis}
    (hab : cmp_analysis a b ≠ Ordering.gt)
    (hbc : cmp_analysis b c ≠ Ordering.gt) :
    cmp_analysis a c ≠ Ordering.gt := by
  rw [cmp_analysis_not_gt_iff] at hab hbc ⊢
  rcases hab with h | ⟨he, hr⟩ <;> rcases hbc with h2 | ⟨he2, hr2⟩
  · exact Or.inl (lt_trans h h2)
  · exact Or.inl (by linarith)
  · exact Or.inl (by linarith)
  · exact Or.inr ⟨by linarith, le_trans hr2 hr⟩

/-- The comparator never answers `gt` on equal candidates. -/
theorem cmp_analysis_refl_not_gt (a : CoinAnalysis) :
    cmp_analysis a a ≠ Ordering.gt := by
  rw [cmp_analysis_not_gt_iff]
  exact Or.inr ⟨rfl, le_refl _⟩

/-- A strictly better later element makes the earlier one non-strictly
smaller. -/
theorem cmp_analysis_gt_asymm {a b : CoinAnalysis}
    (h : cmp_analysis a b = Ordering.gt) :
    cmp_analysis b a ≠ Ordering.gt := by
  rw [cmp_analysis_gt_iff] at h
  rw [cmp_analysis_not_gt_iff]
  rcases h with h | ⟨he, hr⟩
  · exact Or.inl h
  · exact Or.inr ⟨he.symm, le_of_lt hr⟩

/-- Invariant of the `max_by` fold: a returned element comes from the
accumulator or the list, and nothing seen compares strictly greater. -/
theorem max_by_fold_spec (l : List CoinAnalysis) :
    ∀ (acc : Option CoinAnalysis) (s : CoinAnalysis),
      l.foldl max_step acc = some s →
      (acc = some s ∨ s ∈ l) ∧
      (∀ t ∈ l, cmp_analysis t s ≠ Ordering.gt) ∧
      (∀ y, acc = some y → cmp_analysis y s ≠ Ordering.gt) := by
  induction l with
  | nil =>
      intro acc s h
      simp only [List.foldl_nil] at h
      refine ⟨Or.inl h, by simp, ?_⟩
      intro y hy
      rw [h] at hy
      cases hy
      exact cmp_analysis_refl_not_gt s
  | cons x xs ih =>
      intro acc s h
      rw [List.foldl_cons] at h
      obtain ⟨hmem, hmax, hacc⟩ := ih (max_step acc x) s h
      cases acc with
      | none =>
          have hx : cmp_analysis x s ≠ Ordering.gt := hacc x rfl
          refine ⟨?_, ?_, ?_⟩
          · rcases hmem with hm | hm
            · simp only [max_step, Option.some.injEq] at hm
              exact Or.inr (hm ▸ List.mem_cons_self x xs)
            · exact Or.inr (List.mem_cons_of_mem x hm)
          · intro t ht
            rcases List.mem_cons.mp ht with rfl | ht
            · exact hx
            · exact hmax t ht
          · intro y hy
            cases hy
      | some y₀ =>
          by_cases hg : cmp_analysis y₀ x = Ordering.gt
          · have hstep : max_step (some y₀) x = some y₀ := by
              simp [max_step, hg]
            rw [hstep] at hmem hacc
            have hy₀ : cmp_analysis y₀ s ≠ Ordering.gt := hacc y₀ rfl
            refine ⟨?_, ?_, ?_⟩
            · rcases hmem with hm | hm
              · exact Or.inl hm
              · exact Or.inr (List.mem_cons_of_mem x hm)
            · intro t ht
              rcases List.mem_cons.mp ht with rfl | ht
              · exact cmp_analysis_le_trans (cmp_analysis_gt_asymm hg) hy₀
              · exact hmax t ht
            · intro y hy
              cases hy
              exact hy₀
          · have hstep : max_step (some y₀) x = some x := by
              simp [max_step, hg]
            rw [hstep] at hmem hacc
            have hx : cmp_analysis x s ≠ Ordering.gt := hacc x rfl
            refine ⟨?_, ?_, ?_⟩
            · rcases hmem with hm | hm
              · simp only [Option.some.injEq] at hm
                exact Or.inr (hm ▸ List.mem_cons_self x xs)
              · exact Or.inr (List.mem_cons_of_mem x hm)
            · intro t ht
              rcases List.mem_cons.mp ht with rfl | ht
              · exact hx
              · exact hmax t ht
            · intro y hy
              cases hy
              exact cmp_analysis_le_trans hg hx

/-- C7: the selector never picks a candidate with `rsi > 70`,
`entry_score < 0.7`, `volume_ratio < 1.2`, or predicted 10-minute
return `< −5%`; when it picks a candidate, that candidate passed the
filter and, among all filter-passing candidates, has the highest entry
score, ties broken by lower RSI. -/
theorem selector_spec (l : List CoinAnalysis) :
    (∀ a ∈ l,
      (70 < a.rsi ∨ a.entry_score < 7 / 10 ∨ a.volume_ratio < 6 / 5 ∨
        a.price_change_percent < -5) →
      handle_entry_select l ≠ some a) ∧
    (∀ s : CoinAnalysis, handle_entry_select l = some s →
      s ∈ l ∧ passes_filter s = true ∧
      ∀ t ∈ l, passes_filter t = true →
        (t.entry_score < s.entry_score ∨
          (t.entry_score = s.entry_score ∧ s.rsi ≤ t.rsi))) := by
  have hsel : ∀ s : CoinAnalysis, handle_entry_select l = some s →
      s ∈ l.filter passes_filter ∧
      ∀ t ∈ l.filter passes_filter, cmp_analysis t s ≠ Ordering.gt := by
    intro s h
    obtain ⟨hm, hmax, -⟩ :=
      max_by_fold_spec (l.filter passes_filter) none s h
    refine ⟨?_, hmax⟩
    rcases hm with hm | hm
    · cases hm
    · exact hm
  constructor
  · intro a ha hdef heq
    obtain ⟨hmem, -⟩ := hsel a heq
    have hp : passes_filter a = true := List.of_mem_filter hmem
    obtain ⟨h1, h2, h3, h4⟩ := (passes_filter_iff a).mp hp
    rcases hdef with h | h | h | h <;> linarith
  · intro s h
    obtain ⟨hmem, hmax⟩ := hsel s h
    obtain ⟨hsl, hps⟩ := List.mem_filter.mp hmem
    refine ⟨hsl, hps, ?_⟩
    intro t ht hpt
    have := hmax t (List.mem_filter.mpr ⟨ht, hpt⟩)
    exact (cmp_analysis_not_gt_iff t s).mp this

/-- The `volume_ratio` computation can never reach 1.2. -/
theorem volume_ratio_le_one (trades : List TradeRec) :
    volume_ratio trades ≤ 1 := by
  simp only [volume_ratio]
  by_cases hpos : 0 < total_vol trades
  · have hne : total_vol trades ≠ 0 := ne_of_gt hpos
    have h2 : 0 < total_vol trades * 1440 := mul_pos hpos (by norm_num)
    simp only [hpos, if_true, h2]
    have heq : total_vol trades / (total_vol trades * 1440) * 1440 = 1 := by
      field_simp
    rw [heq]
  · have h2 : (0 : ℚ) < 1000000 := by norm_num
    simp only [hpos, if_false, h2, if_true]
    have htv0 : total_vol trades ≤ 0 := not_lt.mp hpos
    have h1 : total_vol trades / 1000000 ≤ 0 :=
      div_nonpos_of_nonpos_of_nonneg htv0 (by norm_num)
    linarith

/-- A candidate pool whose volume ratios stay ≤ 1 yields no selection. -/
theorem handle_entry_select_none (l : List CoinAnalysis)
    (h : ∀ a ∈ l, a.volume_ratio ≤ 1) : handle_entry_select l = none := by
  unfold handle_entry_select max_by_last
  have hfil : l.filter passes_filter = [] := by
    rw [List.filter_eq_nil_iff]
    intro a ha hp
    obtain ⟨-, -, hv, -⟩ := (passes_filter_iff a).mp hp
    have := h a ha
    linarith
  rw [hfil]
  rfl

/-- The analysis record stores exactly the `volume_ratio` computed from
the fetched trades. -/
theorem analyze_coin_volume_ratio (sqrtFn : ℚ → Option ℚ) (coin_id : String)
    (current_price open_price btc_trend_score : ℚ)
    (order_book : OrderBookData) (trades : List TradeRec) (klines : List ℚ) :
    (analyze_coin sqrtFn coin_id current_price open_price btc_trend_score
        order_book trades klines).volume_ratio = volume_ratio trades := rfl

/-- C6: the computed `volume_ratio` equals
`total_vol / (total_vol·1440) · 1440` (that is, 1) when the fetched
trades carry positive total quantity and 0 otherwise; it never reaches
the entry filter's 1.2 bar, so every `analyze_coin` result fails the
volume requirement, the selector returns no candidate, and
`handle_entry` neither inserts a buy order nor opens a position, for
any market data. -/
theorem volume_ratio_blocks_entry :
    (∀ trades : List TradeRec, (∀ t ∈ trades, 0 ≤ t.qty) →
      volume_ratio trades =
        (if 0 < total_vol trades then
          total_vol trades / (total_vol trades * 1440) * 1440
         else 0)) ∧
    (∀ trades : List TradeRec, volume_ratio trades ≤ 1) ∧
    (∀ (sqrtFn : ℚ → Option ℚ) (coin_id : String)
        (current_price open_price btc_trend_score : ℚ)
        (order_book : OrderBookData) (trades : List TradeRec)
        (klines : List ℚ),
      (analyze_coin sqrtFn coin_id current_price open_price btc_trend_score
          order_book trades klines).volume_ratio ≤ 1) ∧
    (∀ l : List CoinAnalysis, (∀ a ∈ l, a.volume_ratio ≤ 1) →
      handle_entry_select l = none) ∧
    (∀ (s : StrategyRow) (env : StrategyEnv),
      (∀ a ∈ env.analyses, a.volume_ratio ≤ 1) →
      handle_entry_step s env = (s, [])) := by
  refine ⟨?_, volume_ratio_le_one, ?_, handle_entry_select_none, ?_⟩
  · intro trades hq
    have h0 : 0 ≤ total_vol trades := by
      unfold total_vol
      apply List.sum_nonneg
      intro x hx
      obtain ⟨t, ht, rfl⟩ := List.mem_map.mp hx
      exact hq t ht
    simp only [volume_ratio]
    by_cases hpos : 0 < total_vol trades
    · have h2 : 0 < total_vol trades * 1440 := mul_pos hpos (by norm_num)
      simp only [hpos, if_true, h2]
    · have hz : total_vol trades = 0 := le_antisymm (not_lt.mp hpos) h0
      have h2 : (0 : ℚ) < 1000000 := by norm_num
      simp only [hpos, if_false, h2, if_true, hz]
      norm_num
  · intro sqrtFn coin_id cp op bt ob trades kl
    rw [analyze_coin_volume_ratio]
    exact volume_ratio_le_one trades
  · intro s env h
    unfold handle_entry_step
    rw [handle_entry_select_none env.analyses h]
    by_cases hb : env.btc_trend < -(1 / 100)
    · rw [if_pos hb]
    · rw [if_neg hb]

/-- Witness for C6 at concrete market data: one trade of quantity 2. -/
theorem volume_ratio_blocks_entry_witness :
    volume_ratio [⟨10, 2, false⟩] =
      (if 0 < total_vol [⟨10, 2, false⟩] then
        total_vol [⟨10, 2, false⟩] /
          (total_vol [⟨10, 2, false⟩] * 1440) * 1440
       else 0) :=
  volume_ratio_blocks_entry.1 [⟨10, 2, false⟩]
    (by intro t ht; simp at ht; rw [ht]; norm_num)

/-- C9: with the high-water mark already raised to the current price,
the stop is `hwm − 2·ATR` while in >0.5% profit with positive ATR
(replaced by `current·0.999` whenever `hwm − 2·ATR` would sit at or
above the current price), `hwm·0.995` in profit without ATR,
`entry − 3·ATR` otherwise with positive ATR, and `entry·0.97` without;
the position is exited exactly when the current price is at or below
the stop or at or above `entry·(1 + target/100)`. -/
theorem trailing_stop_spec (entry hwm₀ current atr target_pct : ℚ)
    (hentry : 0 < entry) :
    (1 / 2 < (current - entry) / entry * 100 → 0 < atr →
      updated_hwm hwm₀ current - atr * 2 < current →
      stop_price entry (updated_hwm hwm₀ current) current atr =
        updated_hwm hwm₀ current - atr * 2) ∧
    (1 / 2 < (current - entry) / entry * 100 → 0 < atr →
      current ≤ updated_hwm hwm₀ current - atr * 2 →
      stop_price entry (updated_hwm hwm₀ current) current atr =
        current * (999 / 1000)) ∧
    (1 / 2 < (current - entry) / entry * 100 → atr ≤ 0 →
      stop_price entry (updated_hwm hwm₀ current) current atr =
        updated_hwm hwm₀ current * (995 / 1000)) ∧
    ((current - entry) / entry * 100 ≤ 1 / 2 → 0 < atr →
      stop_price entry (updated_hwm hwm₀ current) current atr =
        entry - atr * 3) ∧
    ((current - entry) / entry * 100 ≤ 1 / 2 → atr ≤ 0 →
      stop_price entry (updated_hwm hwm₀ current) current atr =
        entry * (97 / 100)) ∧
    (should_sell entry (updated_hwm hwm₀ current) current atr target_pct =
        true ↔
      (current ≤ stop_price entry (updated_hwm hwm₀ current) current atr ∨
        entry * (1 + target_pct / 100) ≤ current)) := by
  refine ⟨?_, ?_, ?_, ?_, ?_, ?_⟩
  · intro hp hatr hlt
    unfold stop_price
    rw [if_pos hp, if_pos hatr, if_neg (not_le.mpr hlt)]
  · intro hp hatr hle
    unfold stop_price
    rw [if_pos hp, if_pos hatr, if_pos hle]
  · intro hp hatr
    unfold stop_price
    rw [if_pos hp, if_neg (not_lt.mpr hatr)]
  · intro hp hatr
    unfold stop_price
    rw [if_neg (not_lt.mpr hp), if_pos hatr]
  · intro hp hatr
    unfold stop_price
    rw [if_neg (not_lt.mpr hp), if_neg (not_lt.mpr hatr)]
  · simp [should_sell]

/-- Witness for C9 at spec scenario values: entry 100, high-water mark
103, current price 101.9, ATR 0.5, target 5%: the dynamic stop 102
sits above the current price, so the stop collapses to
`current·0.999`, and no exit fires. -/
theorem trailing_stop_spec_witness :
    stop_price 100 (updated_hwm 103 (1019 / 10)) (1019 / 10) (1 / 2) =
      (1019 / 10) * (999 / 1000) ∧
    (should_sell 100 (updated_hwm 103 (1019 / 10)) (1019 / 10) (1 / 2) 5 =
        true ↔
      ((1019 / 10 : ℚ) ≤
          stop_price 100 (updated_hwm 103 (1019 / 10)) (1019 / 10) (1 / 2) ∨
        (100 : ℚ) * (1 + 5 / 100) ≤ 1019 / 10)) :=
  ⟨(trailing_stop_spec 100 103 (1019 / 10) (1 / 2) 5 (by norm_num)).2.1
      (by norm_num) (by norm_num) (by norm_num [updated_hwm]),
   (trailing_stop_spec 100 103 (1019 / 10) (1 / 2) 5 (by norm_num)).2.2.2.2.2⟩

/-- C10: a running strategy whose completed iterations have reached its
total is stopped as `completed` by the phase-2 limit checks before any
trading action, the phase-4 re-read with the `status = 'running'` guard
then skips it, and the cycle neither opens a position nor inserts any
order for it: only the status field changes. -/
theorem completed_strategy_skipped (now : ℤ) (s : StrategyRow)
    (env : StrategyEnv) (hrun : s.status = "running")
    (hiter : s.total_iterations ≤ s.iterations_completed) :
    process_strategy now s env = ({ s with status := "completed" }, []) := by
  unfold process_strategy check_limits
  cases hE : s.end_time with
  | none =>
      simp only [hE]
      by_cases ht : s.start_time + s.duration_minutes ≤ now
      · simp [ht]
      · simp [ht, hiter]
  | some e =>
      simp only [hE]
      by_cases ht : e ≤ now
      · simp [ht]
      · simp [ht, hiter]

/-- Witness for C10: a concrete running strategy with
`total_iterations = 0` is completed without any order. -/
theorem completed_strategy_skipped_witness :
    process_strategy 5
      ⟨"running", 1000, 5, 0, 0, 0, 60, none, none, none, none, none,
        none, none, none, none⟩
      ⟨0, [], none, [], none, 0⟩ =
      (⟨"completed", 1000, 5, 0, 0, 0, 60, none, none, none, none, none,
        none, none, none, none⟩, []) :=
  completed_strategy_skipped 5
    ⟨"running", 1000, 5, 0, 0, 0, 60, none, none, none, none, none,
      none, none, none, none⟩
    ⟨0, [], none, [], none, 0⟩ rfl (by norm_num)
